import Mathlib

set_option maxHeartbeats 1000000

/-! Verification development for the mana-cost expander of the
`mtg-semantic-search` repository.  The expander appears twice in the
sources, once in `management.py` and once in `main.py`; both copies are
embedded below (namespaces `Management` and `MainPy`) on top of a shared
model of the Python string primitives they use (`str.upper`, `str.strip`,
`str.isdigit`, `int`, `str.split`, `str.join`, and the regex scan
`re.findall(r"\x7b([^\x7d]*)\x7d", s)`).  The primitive model covers the
ASCII fragment of Python's Unicode behaviour, which is the fragment the
program exercises. -/

/-- The 26 lowercase ASCII letters paired with their uppercase forms.
ASCII fragment of the table behind Python's `str.upper`. -/
def lowerUpperTable : List (Char × Char) :=
  [('a', 'A'), ('b', 'B'), ('c', 'C'), ('d', 'D'), ('e', 'E'), ('f', 'F'),
   ('g', 'G'), ('h', 'H'), ('i', 'I'), ('j', 'J'), ('k', 'K'), ('l', 'L'),
   ('m', 'M'), ('n', 'N'), ('o', 'O'), ('p', 'P'), ('q', 'Q'), ('r', 'R'),
   ('s', 'S'), ('t', 'T'), ('u', 'U'), ('v', 'V'), ('w', 'W'), ('x', 'X'),
   ('y', 'Y'), ('z', 'Z')]

/-- One character of Python's `str.upper` (ASCII fragment): a lowercase
letter maps to its uppercase form, every other character is unchanged. -/
def pyUpperChar (c : Char) : Char :=
  match lowerUpperTable.find? (fun pr => pr.1 == c) with
  | some pr => pr.2
  | none => c

/-- Python's `str.upper` (ASCII fragment), characterwise. -/
def pyUpperStr (s : String) : String :=
  ⟨s.toList.map pyUpperChar⟩

/-- The ASCII whitespace characters stripped by Python's `str.strip()`. -/
def pyIsSpaceChar (c : Char) : Bool :=
  c == ' ' || c == '\t' || c == '\n' || c == '\r' || c == '\x0b' || c == '\x0c'

/-- Remove leading and trailing whitespace from a character list:
the list-level core of Python's `str.strip()`. -/
def stripL (l : List Char) : List Char :=
  ((l.dropWhile pyIsSpaceChar).reverse.dropWhile pyIsSpaceChar).reverse

/-- Python's `str.strip()` (ASCII whitespace). -/
def pyStrip (s : String) : String :=
  ⟨stripL s.toList⟩

/-- Python's `str.isdigit()` on the ASCII fragment: the string is nonempty
and every character is one of the decimal digits 0-9. -/
def pyIsDigit (s : String) : Bool :=
  !s.isEmpty && s.toList.all Char.isDigit

/-- Python's `int(...)` on an all-digit string: fold up the decimal value. -/
def pyInt (s : String) : Nat :=
  s.toList.foldl (fun a c => 10 * a + (c.toNat - 48)) 0

/-- The decimal digit characters, used when Python formats an integer back
into a string (the f-string `f"\x7bvalue\x7d ..."`). -/
def decDigitChar : Nat → Char
  | 0 => '0' | 1 => '1' | 2 => '2' | 3 => '3' | 4 => '4'
  | 5 => '5' | 6 => '6' | 7 => '7' | 8 => '8' | 9 => '9'
  | _ => '*'

/-- Accumulate the decimal digits of `n` (most significant first) in front
of `acc`.  The structural `fuel` argument bounds the recursion depth; any
`fuel ≥ n` yields the full numeral since `n / 10 < n` for `n > 0`. -/
def pyIntReprAux : Nat → Nat → List Char → List Char
  | _, 0, acc => acc
  | 0, _ + 1, acc => acc
  | fuel + 1, n + 1, acc =>
    pyIntReprAux fuel ((n + 1) / 10) (decDigitChar ((n + 1) % 10) :: acc)

/-- Python's `str(...)` of a nonnegative integer: its decimal numeral. -/
def pyIntRepr (n : Nat) : String :=
  if n = 0 then "0" else ⟨pyIntReprAux n n []⟩

/-- Python's `sep.join(parts)`. -/
def pyJoin (sep : String) : List String → String
  | [] => ""
  | a :: as => as.foldl (fun acc x => acc ++ sep ++ x) a

/-- Python's `symbol.split("/")`: split at every slash, keeping empty
segments. -/
def splitSlash : List Char → List (List Char)
  | [] => [[]]
  | c :: rest =>
    if c = '/' then [] :: splitSlash rest
    else
      match splitSlash rest with
      | [] => [[c]]
      | g :: gs => (c :: g) :: gs

/-- Left-to-right scan of `re.findall(r"\x7b([^\x7d]*)\x7d", s)`.  The state
is `none` outside a bracket group and `some acc` after an opening brace,
with `acc` the payload characters collected so far.  A group's payload is
every character (including further opening braces) up to the first closing
brace; a group still open at the end of the input yields no token. -/
def findSymbolsAux : Option (List Char) → List Char → List String
  | _, [] => []
  | none, c :: rest =>
    if c = '{' then findSymbolsAux (some []) rest else findSymbolsAux none rest
  | some acc, c :: rest =>
    if c = '}' then (⟨acc⟩ : String) :: findSymbolsAux none rest
    else findSymbolsAux (some (acc ++ [c])) rest

/-- `re.findall(r"\x7b([^\x7d]*)\x7d", s)`: the ordered list of payloads of
the brace-delimited groups of `s`. -/
def findSymbols (l : List Char) : List String :=
  findSymbolsAux none l

namespace Management

/-- `COLOUR_MAP` of `management.py`. -/
def COLOUR_MAP : List (String × String) :=
  [("W", "white"), ("U", "blue"), ("B", "black"), ("R", "red"), ("G", "green")]

/-- `_describe_hybrid_part` of `management.py`. -/
def describe_hybrid_part (part0 : String) : String :=
  let part := pyStrip (pyUpperStr part0)
  if pyIsDigit part then pyIntRepr (pyInt part) ++ " colourless"
  else if part = "P" then "2 life"
  else
    match COLOUR_MAP.find? (fun pr => pr.1 == part) with
    | some pr => pr.2
    | none =>
      if part = "C" then "colourless"
      else if part = "S" then "snow"
      else part

/-- `_expand_single_symbol` of `management.py` (its argument is already
stripped and uppercased by the caller). -/
def expand_single_symbol (symbol : String) : String :=
  if pyIsDigit symbol then pyIntRepr (pyInt symbol) ++ " colourless mana"
  else
    match COLOUR_MAP.find? (fun pr => pr.1 == symbol) with
    | some pr => "1 " ++ pr.2 ++ " mana"
    | none =>
      if symbol = "C" then "1 colourless mana"
      else if symbol = "S" then "1 snow mana"
      else if symbol = "X" then "X mana"
      else if symbol = "T" then "tap symbol"
      else if symbol = "Q" then "untap symbol"
      else if symbol.toList.contains '/' then
        let hybrid_parts :=
          ((splitSlash symbol.toList).map
            (fun p => describe_hybrid_part ⟨p⟩)).filter (fun p => p ≠ "")
        if hybrid_parts.isEmpty then symbol
        else pyJoin " or " hybrid_parts ++ " hybrid mana"
      else symbol

/-- The body of the `for raw_symbol in symbols` loop of `expand_mana_cost`
in `management.py`: normalize the raw payload, skip it when it normalizes
to the empty string, expand it, and skip empty expansions. -/
def expandedParts (symbols : List String) : List String :=
  symbols.filterMap (fun raw_symbol =>
    let symbol := pyUpperStr (pyStrip raw_symbol)
    if symbol = "" then none
    else
      let expanded := expand_single_symbol symbol
      if expanded = "" then none else some expanded)

/-- The tail of `expand_mana_cost` in `management.py`: join the collected
parts with a comma-space, or return the absence value when none remain. -/
def expandFromSymbols (symbols : List String) : Option String :=
  let parts := expandedParts symbols
  if parts.isEmpty then none else some (pyJoin ", " parts)

/-- `expand_mana_cost` of `management.py`.  `none` models the absent value
(`None` in, `pd.isna` input, or `None` returned). -/
def expand_mana_cost : Option String → Option String
  | none => none
  | some mana_cost =>
    if mana_cost = "" then none
    else
      let symbols := findSymbols mana_cost.toList
      if symbols.isEmpty then none
      else expandFromSymbols symbols

end Management

namespace MainPy

/-- `COLOUR_MAP` of `main.py`. -/
def COLOUR_MAP : List (String × String) :=
  [("W", "white"), ("U", "blue"), ("B", "black"), ("R", "red"), ("G", "green")]

/-- `_describe_hybrid_part` of `main.py`. -/
def describe_hybrid_part (part0 : String) : String :=
  let part := pyStrip (pyUpperStr part0)
  if pyIsDigit part then pyIntRepr (pyInt part) ++ " colourless"
  else if part = "P" then "2 life"
  else
    match COLOUR_MAP.find? (fun pr => pr.1 == part) with
    | some pr => pr.2
    | none =>
      if part = "C" then "colourless"
      else if part = "S" then "snow"
      else part

/-- `_expand_single_symbol` of `main.py`. -/
def expand_single_symbol (symbol : String) : String :=
  if pyIsDigit symbol then pyIntRepr (pyInt symbol) ++ " colourless mana"
  else
    match COLOUR_MAP.find? (fun pr => pr.1 == symbol) with
    | some pr => "1 " ++ pr.2 ++ " mana"
    | none =>
      if symbol = "C" then "1 colourless mana"
      else if symbol = "S" then "1 snow mana"
      else if symbol = "X" then "X mana"
      else if symbol = "T" then "tap symbol"
      else if symbol = "Q" then "untap symbol"
      else if symbol.toList.contains '/' then
        let hybrid_parts :=
          ((splitSlash symbol.toList).map
            (fun p => describe_hybrid_part ⟨p⟩)).filter (fun p => p ≠ "")
        if hybrid_parts.isEmpty then symbol
        else pyJoin " or " hybrid_parts ++ " hybrid mana"
      else symbol

/-- The symbol loop of `expand_mana_cost` in `main.py`. -/
def expandedParts (symbols : List String) : List String :=
  symbols.filterMap (fun raw_symbol =>
    let symbol := pyUpperStr (pyStrip raw_symbol)
    if symbol = "" then none
    else
      let expanded := expand_single_symbol symbol
      if expanded = "" then none else some expanded)

/-- The tail of `expand_mana_cost` in `main.py`. -/
def expandFromSymbols (symbols : List String) : Option String :=
  let parts := expandedParts symbols
  if parts.isEmpty then none else some (pyJoin ", " parts)

/-- `expand_mana_cost` of `main.py`. -/
def expand_mana_cost : Option String → Option String
  | none => none
  | some mana_cost =>
    if mana_cost = "" then none
    else
      let symbols := findSymbols mana_cost.toList
      if symbols.isEmpty then none
      else expandFromSymbols symbols

end MainPy

/-! ### Helper lemmas about the primitive model -/

theorem pyUpperChar_spec (c : Char) :
    pyUpperChar c = c ∨ ∃ pr, pr ∈ lowerUpperTable ∧ pr.1 = c ∧ pyUpperChar c = pr.2 := by
  unfold pyUpperChar
  cases h : lowerUpperTable.find? (fun pr => pr.1 == c) with
  | none => exact Or.inl rfl
  | some pr =>
    have hp := List.find?_some (p := fun (pr : Char × Char) => pr.1 == c) h
    exact Or.inr ⟨pr, List.mem_of_find?_eq_some h, eq_of_beq hp, rfl⟩

theorem pyUpperChar_idem (c : Char) : pyUpperChar (pyUpperChar c) = pyUpperChar c := by
  rcases pyUpperChar_spec c with h | ⟨pr, hmem, _, h⟩
  · rw [h]; exact h
  · rw [h]
    have htab : ∀ pr ∈ lowerUpperTable, pyUpperChar pr.2 = pr.2 := by decide
    exact htab pr hmem

theorem pyIsSpaceChar_pyUpperChar (c : Char) :
    pyIsSpaceChar (pyUpperChar c) = pyIsSpaceChar c := by
  rcases pyUpperChar_spec c with h | ⟨pr, hmem, hc, h⟩
  · rw [h]
  · rw [h, ← hc]
    have htab : ∀ pr ∈ lowerUpperTable, pyIsSpaceChar pr.2 = pyIsSpaceChar pr.1 := by
      decide
    exact htab pr hmem

theorem pyUpperChar_eq_lbrace (c : Char) : pyUpperChar c = '{' ↔ c = '{' := by
  rcases pyUpperChar_spec c with h | ⟨pr, hmem, hc, h⟩
  · rw [h]
  · rw [h, ← hc]
    have htab : ∀ pr ∈ lowerUpperTable, pr.2 ≠ '{' ∧ pr.1 ≠ '{' := by decide
    simp [(htab pr hmem).1, (htab pr hmem).2]

theorem pyUpperChar_eq_rbrace (c : Char) : pyUpperChar c = '}' ↔ c = '}' := by
  rcases pyUpperChar_spec c with h | ⟨pr, hmem, hc, h⟩
  · rw [h]
  · rw [h, ← hc]
    have htab : ∀ pr ∈ lowerUpperTable, pr.2 ≠ '}' ∧ pr.1 ≠ '}' := by decide
    simp [(htab pr hmem).1, (htab pr hmem).2]

theorem dropWhileSpace_map (l : List Char) :
    (l.map pyUpperChar).dropWhile pyIsSpaceChar
      = (l.dropWhile pyIsSpaceChar).map pyUpperChar := by
  have hcomp : (pyIsSpaceChar ∘ pyUpperChar) = pyIsSpaceChar := by
    funext c; exact pyIsSpaceChar_pyUpperChar c
  rw [List.dropWhile_map, hcomp]

theorem stripL_map_pyUpperChar (l : List Char) :
    stripL (l.map pyUpperChar) = (stripL l).map pyUpperChar := by
  unfold stripL
  rw [dropWhileSpace_map, ← List.map_reverse, dropWhileSpace_map, ← List.map_reverse]

theorem map_pyUpperChar_idem (l : List Char) :
    (l.map pyUpperChar).map pyUpperChar = l.map pyUpperChar := by
  have hcomp : (pyUpperChar ∘ pyUpperChar) = pyUpperChar := by
    funext c; exact pyUpperChar_idem c
  rw [List.map_map, hcomp]

theorem toList_mk (l : List Char) : (String.mk l).toList = l := rfl

theorem normSymbol_pyUpperStr (r : String) :
    pyUpperStr (pyStrip (pyUpperStr r)) = pyUpperStr (pyStrip r) := by
  have hcomp : (pyUpperChar ∘ pyUpperChar) = pyUpperChar := by
    funext c; exact pyUpperChar_idem c
  simp [pyUpperStr, pyStrip, toList_mk, stripL_map_pyUpperChar]
  rw [hcomp]

theorem findSymbolsAux_skip (sep rest : List Char) (h : ∀ c ∈ sep, c ≠ '{') :
    findSymbolsAux none (sep ++ rest) = findSymbolsAux none rest := by
  induction sep with
  | nil => rfl
  | cons c t ih =>
    have hc : c ≠ '{' := h c (List.mem_cons_self c t)
    have ih' := ih (fun d hd => h d (List.mem_cons_of_mem c hd))
    simpa [findSymbolsAux, hc] using ih'

theorem findSymbolsAux_group (p : List Char) (hp : ∀ c ∈ p, c ≠ '}') :
    ∀ acc rest : List Char,
      findSymbolsAux (some acc) (p ++ '}' :: rest)
        = (⟨acc ++ p⟩ : String) :: findSymbolsAux none rest := by
  induction p with
  | nil => intro acc rest; simp [findSymbolsAux]
  | cons c t ih =>
    intro acc rest
    have hc : c ≠ '}' := hp c (List.mem_cons_self c t)
    have ih' := ih (fun d hd => hp d (List.mem_cons_of_mem c hd)) (acc ++ [c]) rest
    simpa [findSymbolsAux, hc, List.append_assoc] using ih'

theorem findSymbols_group (p rest : List Char) (hp : ∀ c ∈ p, c ≠ '}') :
    findSymbols ('{' :: (p ++ '}' :: rest)) = (⟨p⟩ : String) :: findSymbols rest := by
  have h := findSymbolsAux_group p hp [] rest
  simpa [findSymbols, findSymbolsAux] using h

theorem findSymbolsAux_no_rbrace (l : List Char) (h : ∀ c ∈ l, c ≠ '}') :
    ∀ st, findSymbolsAux st l = [] := by
  induction l with
  | nil => intro st; cases st <;> rfl
  | cons c t ih =>
    intro st
    have hc : c ≠ '}' := h c (List.mem_cons_self c t)
    have ih' := ih (fun d hd => h d (List.mem_cons_of_mem c hd))
    cases st with
    | none => by_cases hcb : c = '{' <;> simp [findSymbolsAux, hcb, ih']
    | some acc => simp [findSymbolsAux, hc, ih']

theorem findSymbolsAux_map_upper (l : List Char) :
    ∀ st : Option (List Char),
      findSymbolsAux (st.map (List.map pyUpperChar)) (l.map pyUpperChar)
        = (findSymbolsAux st l).map pyUpperStr := by
  induction l with
  | nil => intro st; cases st <;> rfl
  | cons c t ih =>
    intro st
    cases st with
    | none =>
      by_cases hc : c = '{'
      · subst hc
        have h1 : pyUpperChar '{' = '{' := by decide
        have ih' := ih (some [])
        simpa [findSymbolsAux, h1] using ih'
      · have hc2 : pyUpperChar c ≠ '{' := fun h2 => hc ((pyUpperChar_eq_lbrace c).1 h2)
        have ih' := ih none
        simpa [findSymbolsAux, hc, hc2] using ih'
    | some acc =>
      by_cases hc : c = '}'
      · subst hc
        have h1 : pyUpperChar '}' = '}' := by decide
        have ih' := ih none
        simpa [findSymbolsAux, h1, pyUpperStr, toList_mk] using ih'
      · have hc2 : pyUpperChar c ≠ '}' := fun h2 => hc ((pyUpperChar_eq_rbrace c).1 h2)
        have ih' := ih (some (acc ++ [c]))
        simpa [findSymbolsAux, hc, hc2, List.map_append] using ih'

theorem findSymbols_map_upper (l : List Char) :
    findSymbols (l.map pyUpperChar) = (findSymbols l).map pyUpperStr := by
  simpa [findSymbols] using findSymbolsAux_map_upper l none

theorem pyJoin_foldl_length (sep : String) (as : List String) :
    ∀ acc : String,
      acc.length ≤ (as.foldl (fun acc x => acc ++ sep ++ x) acc).length := by
  induction as with
  | nil => intro acc; simp
  | cons a t ih =>
    intro acc
    rw [List.foldl_cons]
    refine le_trans ?_ (ih (acc ++ sep ++ a))
    simp only [String.length_append]
    omega

theorem pyJoin_ne_empty (sep p : String) (rest : List String) (hp : p ≠ "") :
    pyJoin sep (p :: rest) ≠ "" := by
  intro h
  have h1 : p.length ≤ (pyJoin sep (p :: rest)).length := by
    simpa [pyJoin] using pyJoin_foldl_length sep rest p
  rw [h] at h1
  have h2 : p.length = 0 := by simpa using h1
  obtain ⟨data⟩ := p
  cases data with
  | nil => exact hp rfl
  | cons c t => simp at h2

theorem mem_expandedParts_ne_empty (syms : List String) (p : String)
    (h : p ∈ Management.expandedParts syms) : p ≠ "" := by
  rw [Management.expandedParts, List.mem_filterMap] at h
  obtain ⟨raw, _, hf⟩ := h
  by_cases h1 : pyUpperStr (pyStrip raw) = ""
  · simp [h1] at hf
  · by_cases h2 : Management.expand_single_symbol (pyUpperStr (pyStrip raw)) = ""
    · simp [h1, h2] at hf
    · simp [h1, h2] at hf
      rw [← hf]
      exact h2

theorem colour_find_eq_none (s : String)
    (h : s ∉ (["W", "U", "B", "R", "G"] : List String)) :
    Management.COLOUR_MAP.find? (fun pr => pr.1 == s) = none := by
  rw [List.find?_eq_none]
  intro pr hpr
  simp only [Management.COLOUR_MAP, List.mem_cons, List.not_mem_nil, or_false] at hpr
  simp only [List.mem_cons, List.not_mem_nil, not_or] at h
  obtain ⟨hW, hU, hB, hR, hG⟩ := h
  rcases hpr with rfl | rfl | rfl | rfl | rfl <;>
    simp only [beq_iff_eq] <;> intro he
  · exact hW he.symm
  · exact hU he.symm
  · exact hB he.symm
  · exact hR he.symm
  · exact hG.1 he.symm

theorem pyIsDigit_eq_false_of_slash (s : String) (h : '/' ∈ s.toList) :
    pyIsDigit s = false := by
  cases hall : s.toList.all Char.isDigit with
  | false => unfold pyIsDigit; rw [hall, Bool.and_false]
  | true =>
    have h2 := List.all_eq_true.mp hall '/' h
    exact absurd h2 (by decide)

theorem slash_not_colour (s : String) (h : '/' ∈ s.toList) :
    s ∉ (["W", "U", "B", "R", "G"] : List String) := by
  intro hs
  have hs' : s = "W" ∨ s = "U" ∨ s = "B" ∨ s = "R" ∨ s = "G" := by simpa using hs
  rcases hs' with rfl | rfl | rfl | rfl | rfl <;> exact absurd h (by decide)

theorem dropWhile_eq_nil_of_all (p : Char → Bool) (l : List Char)
    (h : ∀ c ∈ l, p c = true) : l.dropWhile p = [] := by
  induction l with
  | nil => rfl
  | cons c t ih =>
    rw [List.dropWhile_cons, if_pos (h c (List.mem_cons_self c t))]
    exact ih (fun d hd => h d (List.mem_cons_of_mem c hd))

theorem stripL_pad (a b l : List Char)
    (ha : ∀ c ∈ a, pyIsSpaceChar c = true) (hb : ∀ c ∈ b, pyIsSpaceChar c = true) :
    stripL (a ++ l ++ b) = stripL l := by
  unfold stripL
  rw [List.append_assoc, List.dropWhile_append_of_pos ha]
  by_cases hl : l.dropWhile pyIsSpaceChar = []
  · have hlb : (l ++ b).dropWhile pyIsSpaceChar = [] := by
      rw [List.dropWhile_append, hl]
      simp [dropWhile_eq_nil_of_all pyIsSpaceChar b hb]
    rw [hlb, hl]
  · have hlb : (l ++ b).dropWhile pyIsSpaceChar = l.dropWhile pyIsSpaceChar ++ b := by
      rw [List.dropWhile_append, if_neg]
      intro he
      exact hl (List.isEmpty_iff.mp he)
    rw [hlb, List.reverse_append]
    rw [List.dropWhile_append_of_pos (fun c hc => hb c (List.mem_reverse.mp hc))]

theorem decDigitChar_not_upper (m : Nat) : (decDigitChar m).isUpper = false := by
  rcases m with _|_|_|_|_|_|_|_|_|_|m <;> rfl

theorem pyIntReprAux_not_upper (fuel : Nat) :
    ∀ n : Nat, ∀ acc : List Char, (∀ c ∈ acc, c.isUpper = false) →
      ∀ c ∈ pyIntReprAux fuel n acc, c.isUpper = false := by
  induction fuel with
  | zero =>
    intro n acc hacc
    cases n with
    | zero => simpa [pyIntReprAux] using hacc
    | succ n => simpa [pyIntReprAux] using hacc
  | succ f ih =>
    intro n acc hacc
    cases n with
    | zero => simpa [pyIntReprAux] using hacc
    | succ n =>
      refine ih ((n + 1) / 10) (decDigitChar ((n + 1) % 10) :: acc) ?_
      intro c hc
      rcases List.mem_cons.mp hc with rfl | hc2
      · exact decDigitChar_not_upper ((n + 1) % 10)
      · exact hacc c hc2

theorem pyIntRepr_not_upper (n : Nat) :
    ∀ c ∈ (pyIntRepr n).toList, c.isUpper = false := by
  unfold pyIntRepr
  by_cases h : n = 0
  · rw [if_pos h]; decide
  · rw [if_neg h]
    exact pyIntReprAux_not_upper n n [] (by simp)

theorem toList_append (a b : String) : (a ++ b).toList = a.toList ++ b.toList :=
  String.data_append a b

theorem describe_hybrid_part_congr (p q : String)
    (h : pyStrip (pyUpperStr p) = pyStrip (pyUpperStr q)) :
    Management.describe_hybrid_part p = Management.describe_hybrid_part q := by
  unfold Management.describe_hybrid_part
  rw [h]

theorem expandedParts_map_upper (raws : List String) :
    Management.expandedParts (raws.map pyUpperStr) = Management.expandedParts raws := by
  unfold Management.expandedParts
  rw [List.filterMap_map]
  apply List.filterMap_congr
  intro r _
  simp only [Function.comp_apply, normSymbol_pyUpperStr]

theorem expandFromSymbols_map_upper (raws : List String) :
    Management.expandFromSymbols (raws.map pyUpperStr)
      = Management.expandFromSymbols raws := by
  unfold Management.expandFromSymbols
  rw [expandedParts_map_upper]

example : Management.expand_mana_cost (some "{2}{W}{W/P}") =
    some "2 colourless mana, 1 white mana, white or 2 life hybrid mana" := by decide

example : Management.expand_mana_cost (some "{W/U}") =
    some "white or blue hybrid mana" := by decide

example : Management.expand_mana_cost (some "{2/W}") =
    some "2 colourless or white hybrid mana" := by decide

example : Management.expand_mana_cost (some "{Z}") = some "Z" := by decide

example : Management.expand_mana_cost (some "{}") = none := by decide

example : Management.expand_mana_cost (some "{ }") = none := by decide

example : Management.expand_mana_cost (some "{02}") = some "2 colourless mana" := by decide

example : Management.expand_mana_cost (some "{w / p}") =
    some "white or 2 life hybrid mana" := by decide

example : Management.expand_mana_cost (some "{T}") = some "tap symbol" := by decide

example : findSymbols "x\x7by".toList = [] := by decide

example : findSymbols "\x7ba\x7bb\x7d".toList = ["a\x7bb"] := by decide

/-! ### Claim theorems -/

/-- C1: `expand_mana_cost` returns the absence marker on absent or empty
input, on input whose symbol extraction yields no payloads, and when every
symbol is skipped; otherwise it returns the non-empty expansion phrases of
the symbols, in source order, joined with a comma-space; it never returns
an empty string. -/
theorem claim_C1 :
    Management.expand_mana_cost none = none
    ∧ Management.expand_mana_cost (some "") = none
    ∧ (∀ s : String, findSymbols s.toList = [] →
        Management.expand_mana_cost (some s) = none)
    ∧ (∀ s : String, Management.expandedParts (findSymbols s.toList) = [] →
        Management.expand_mana_cost (some s) = none)
    ∧ (∀ s : String, s ≠ "" → Management.expandedParts (findSymbols s.toList) ≠ [] →
        Management.expand_mana_cost (some s)
          = some (pyJoin ", " (Management.expandedParts (findSymbols s.toList))))
    ∧ (∀ s : String, Management.expand_mana_cost (some s) ≠ some "") := by
  refine ⟨rfl, rfl, ?_, ?_, ?_, ?_⟩
  · intro s h
    have h' : findSymbols s.data = [] := h
    simp [Management.expand_mana_cost, h']
  · intro s h
    have h' : Management.expandedParts (findSymbols s.data) = [] := h
    simp [Management.expand_mana_cost, Management.expandFromSymbols, h']
  · intro s hs hp
    have hp' : Management.expandedParts (findSymbols s.data) ≠ [] := hp
    cases hfs : findSymbols s.data with
    | nil =>
      have hnil : Management.expandedParts (findSymbols s.data) = [] := by
        rw [hfs]; rfl
      exact absurd hnil hp'
    | cons a t =>
      have hpp0 : Management.expandedParts (findSymbols s.data)
          = Management.expandedParts (a :: t) := by rw [hfs]
      cases hpp : Management.expandedParts (a :: t) with
      | nil => exact absurd (hpp0.trans hpp) hp'
      | cons p t' =>
        have hrhs : Management.expandedParts (findSymbols s.toList) = p :: t' :=
          hpp0.trans hpp
        rw [hrhs]
        simp [Management.expand_mana_cost, hs, hfs, Management.expandFromSymbols, hpp]
  · intro s
    by_cases hs : s = ""
    · subst hs; simp [Management.expand_mana_cost]
    · cases hfs : findSymbols s.data with
      | nil => simp [Management.expand_mana_cost, hs, hfs]
      | cons a t =>
        cases hpp : Management.expandedParts (a :: t) with
        | nil =>
          simp [Management.expand_mana_cost, hs, hfs, Management.expandFromSymbols, hpp]
        | cons p t' =>
          have hpne : p ≠ "" :=
            mem_expandedParts_ne_empty (a :: t) p
              (by rw [hpp]; exact List.mem_cons_self p t')
          have hjoin := pyJoin_ne_empty ", " p t' hpne
          simp [Management.expand_mana_cost, hs, hfs, Management.expandFromSymbols,
            hpp, hjoin]

theorem claim_C1_witness :
    Management.expand_mana_cost (some "{2}{W}{W/P}")
      = some "2 colourless mana, 1 white mana, white or 2 life hybrid mana" := by
  have h := claim_C1.2.2.2.2.1 "{2}{W}{W/P}" (by decide) (by decide)
  exact h.trans (by decide)

/-- C2: the single-symbol expander maps an all-digit payload to
"N colourless mana" with the parsed integer value (leading zeros removed),
the five colour codes to "1 colour mana", C to "1 colourless mana",
S to "1 snow mana", X to the literal "X mana", T to "tap symbol" and
Q to "untap symbol"; the shapes are mutually exclusive, so the rule order
fixed in the code yields exactly these results. -/
theorem claim_C2 :
    (∀ symbol : String, pyIsDigit symbol = true →
        Management.expand_single_symbol symbol
          = pyIntRepr (pyInt symbol) ++ " colourless mana")
    ∧ Management.expand_single_symbol "02" = "2 colourless mana"
    ∧ Management.expand_single_symbol "W" = "1 white mana"
    ∧ Management.expand_single_symbol "U" = "1 blue mana"
    ∧ Management.expand_single_symbol "B" = "1 black mana"
    ∧ Management.expand_single_symbol "R" = "1 red mana"
    ∧ Management.expand_single_symbol "G" = "1 green mana"
    ∧ Management.expand_single_symbol "C" = "1 colourless mana"
    ∧ Management.expand_single_symbol "S" = "1 snow mana"
    ∧ Management.expand_single_symbol "X" = "X mana"
    ∧ Management.expand_single_symbol "T" = "tap symbol"
    ∧ Management.expand_single_symbol "Q" = "untap symbol" := by
  refine ⟨?_, by decide, by decide, by decide, by decide, by decide, by decide,
    by decide, by decide, by decide, by decide, by decide⟩
  intro symbol h
  unfold Management.expand_single_symbol
  rw [if_pos h]

theorem claim_C2_witness :
    pyIsDigit "007" = true
    ∧ Management.expand_single_symbol "007" = "7 colourless mana" :=
  ⟨by decide, (claim_C2.1 "007" (by decide)).trans (by decide)⟩

/-- C4: symbol extraction returns exactly the ordered payloads of the
brace groups: characters outside groups (any prefix without an opening
brace) contribute nothing, each group contributes its payload in source
order, and input without a closing brace (in particular an unmatched
opening brace) yields no token.  The embedding is a total function, so no
error is possible. -/
theorem claim_C4 :
    (∀ sep rest : List Char, (∀ c ∈ sep, c ≠ '{') →
        findSymbols (sep ++ rest) = findSymbols rest)
    ∧ (∀ p rest : List Char, (∀ c ∈ p, c ≠ '}') →
        findSymbols ('{' :: (p ++ '}' :: rest)) = (⟨p⟩ : String) :: findSymbols rest)
    ∧ (∀ l : List Char, (∀ c ∈ l, c ≠ '}') → findSymbols l = []) := by
  refine ⟨?_, ?_, ?_⟩
  · intro sep rest h
    exact findSymbolsAux_skip sep rest h
  · intro p rest h
    exact findSymbols_group p rest h
  · intro l h
    exact findSymbolsAux_no_rbrace l h none

theorem claim_C4_witness :
    findSymbols ('{' :: (['W'] ++ '}' :: [])) = [("W" : String)] := by
  have h := claim_C4.2.1 ['W'] [] (by decide)
  exact h.trans (by decide)

/-- C7: the expander is deterministic: two invocations with identical
input yield identical output.  Statelessness is captured by the embedding
itself: `expand_mana_cost` is a pure function of its single argument (the
Python function reads only its argument and immutable module constants). -/
theorem claim_C7 (x y : Option String) (h : x = y) :
    Management.expand_mana_cost x = Management.expand_mana_cost y := by
  rw [h]

theorem claim_C7_witness :
    Management.expand_mana_cost (some "{W}")
      = Management.expand_mana_cost (some "{W}") :=
  claim_C7 (some "{W}") (some "{W}") rfl

/-- C8: the copies of the expander in `main.py` and in `management.py`
are extensionally equal, including their helpers. -/
theorem claim_C8 :
    (∀ x : Option String, MainPy.expand_mana_cost x = Management.expand_mana_cost x)
    ∧ (∀ s : String,
        MainPy.expand_single_symbol s = Management.expand_single_symbol s)
    ∧ (∀ p : String,
        MainPy.describe_hybrid_part p = Management.describe_hybrid_part p) := by
  refine ⟨fun x => ?_, fun s => rfl, fun p => rfl⟩
  cases x <;> rfl

theorem describe_hybrid_part_digit (p : String)
    (h : pyIsDigit (pyStrip (pyUpperStr p)) = true) :
    Management.describe_hybrid_part p
      = pyIntRepr (pyInt (pyStrip (pyUpperStr p))) ++ " colourless" := by
  simp [Management.describe_hybrid_part, h]

theorem describe_hybrid_part_life (p : String)
    (hd : pyIsDigit (pyStrip (pyUpperStr p)) = false)
    (h : pyStrip (pyUpperStr p) = "P") :
    Management.describe_hybrid_part p = "2 life" := by
  simp [Management.describe_hybrid_part, hd, h]
  decide

theorem describe_hybrid_part_found (p : String) (pr : String × String)
    (hd : pyIsDigit (pyStrip (pyUpperStr p)) = false)
    (hP : pyStrip (pyUpperStr p) ≠ "P")
    (hfind : Management.COLOUR_MAP.find?
        (fun pr => pr.1 == pyStrip (pyUpperStr p)) = some pr) :
    Management.describe_hybrid_part p = pr.2 := by
  simp [Management.describe_hybrid_part, hd, hP, hfind]

theorem describe_hybrid_part_colourless (p : String)
    (hd : pyIsDigit (pyStrip (pyUpperStr p)) = false)
    (hP : pyStrip (pyUpperStr p) ≠ "P")
    (hfind : Management.COLOUR_MAP.find?
        (fun pr => pr.1 == pyStrip (pyUpperStr p)) = none)
    (h : pyStrip (pyUpperStr p) = "C") :
    Management.describe_hybrid_part p = "colourless" := by
  simp [Management.describe_hybrid_part, hd, hP, hfind, h]
  decide

theorem describe_hybrid_part_snow (p : String)
    (hd : pyIsDigit (pyStrip (pyUpperStr p)) = false)
    (hP : pyStrip (pyUpperStr p) ≠ "P")
    (hfind : Management.COLOUR_MAP.find?
        (fun pr => pr.1 == pyStrip (pyUpperStr p)) = none)
    (hC : pyStrip (pyUpperStr p) ≠ "C")
    (h : pyStrip (pyUpperStr p) = "S") :
    Management.describe_hybrid_part p = "snow" := by
  simp [Management.describe_hybrid_part, hd, hP, hfind, hC, h]
  decide

theorem describe_hybrid_part_unknown (p : String)
    (hd : pyIsDigit (pyStrip (pyUpperStr p)) = false)
    (hP : pyStrip (pyUpperStr p) ≠ "P")
    (hfind : Management.COLOUR_MAP.find?
        (fun pr => pr.1 == pyStrip (pyUpperStr p)) = none)
    (hC : pyStrip (pyUpperStr p) ≠ "C")
    (hS : pyStrip (pyUpperStr p) ≠ "S") :
    Management.describe_hybrid_part p = pyStrip (pyUpperStr p) := by
  simp [Management.describe_hybrid_part, hd, hP, hfind, hC, hS]

/-- C3: a payload containing a slash (which never matches an earlier rule)
is split at every slash, each part is described independently, empty
descriptions are dropped, and the rest are joined with " or " and suffixed
with " hybrid mana"; when no part yields a description the original
payload is returned unchanged.  Parts are described as: all-digit value as
"N colourless", P as "2 life", colour codes as the bare colour name, C as
"colourless", S as "snow", anything else unchanged. -/
theorem claim_C3 :
    (∀ symbol : String, '/' ∈ symbol.toList →
        Management.expand_single_symbol symbol
          = (if (((splitSlash symbol.toList).map
                  (fun p => Management.describe_hybrid_part ⟨p⟩)).filter
                  (fun p => p ≠ "")).isEmpty
             then symbol
             else pyJoin " or "
                 (((splitSlash symbol.toList).map
                   (fun p => Management.describe_hybrid_part ⟨p⟩)).filter
                   (fun p => p ≠ "")) ++ " hybrid mana"))
    ∧ (∀ p : String, pyIsDigit (pyStrip (pyUpperStr p)) = true →
        Management.describe_hybrid_part p
          = pyIntRepr (pyInt (pyStrip (pyUpperStr p))) ++ " colourless")
    ∧ Management.describe_hybrid_part "P" = "2 life"
    ∧ Management.describe_hybrid_part "W" = "white"
    ∧ Management.describe_hybrid_part "U" = "blue"
    ∧ Management.describe_hybrid_part "B" = "black"
    ∧ Management.describe_hybrid_part "R" = "red"
    ∧ Management.describe_hybrid_part "G" = "green"
    ∧ Management.describe_hybrid_part "C" = "colourless"
    ∧ Management.describe_hybrid_part "S" = "snow"
    ∧ (∀ p : String, pyIsDigit (pyStrip (pyUpperStr p)) = false →
        pyStrip (pyUpperStr p)
            ∉ (["P", "W", "U", "B", "R", "G", "C", "S"] : List String) →
        Management.describe_hybrid_part p = pyStrip (pyUpperStr p)) := by
  refine ⟨?_, describe_hybrid_part_digit, by decide, by decide, by decide, by decide,
    by decide, by decide, by decide, by decide, ?_⟩
  · intro symbol h
    have hdig := pyIsDigit_eq_false_of_slash symbol h
    have hfind := colour_find_eq_none symbol (slash_not_colour symbol h)
    have hC : symbol ≠ "C" := fun he => absurd (he ▸ h) (by decide)
    have hS : symbol ≠ "S" := fun he => absurd (he ▸ h) (by decide)
    have hX : symbol ≠ "X" := fun he => absurd (he ▸ h) (by decide)
    have hT : symbol ≠ "T" := fun he => absurd (he ▸ h) (by decide)
    have hQ : symbol ≠ "Q" := fun he => absurd (he ▸ h) (by decide)
    have hcont : symbol.toList.contains '/' = true := List.elem_iff.mpr h
    have h' : '/' ∈ symbol.data := h
    simp [Management.expand_single_symbol, hdig, hfind, hC, hS, hX, hT, hQ, hcont, h']
  · intro p h1 h2
    simp only [List.mem_cons, List.not_mem_nil, or_false, not_or] at h2
    obtain ⟨hP, hW, hU, hB, hR, hG, hC2, hS2⟩ := h2
    have hfind := colour_find_eq_none (pyStrip (pyUpperStr p))
      (by
        simp only [List.mem_cons, List.not_mem_nil, or_false, not_or]
        exact ⟨hW, hU, hB, hR, hG⟩)
    exact describe_hybrid_part_unknown p h1 hP hfind hC2 hS2

theorem claim_C3_witness :
    Management.expand_single_symbol "W/P" = "white or 2 life hybrid mana" := by
  have h := claim_C3.1 "W/P" (by decide)
  exact h.trans (by decide)

/-- C5: `expand_mana_cost` is total in the embedding and a payload that
matches no recognized shape (not all-digit, not a colour code, not one of
C, S, X, T, Q, and with no describable hybrid parts) is returned
unchanged, so the notation "{Z}" expands to "Z". -/
theorem claim_C5 :
    (∀ symbol : String,
        pyIsDigit symbol = false →
        symbol ∉ (["W", "U", "B", "R", "G"] : List String) →
        symbol ∉ (["C", "S", "X", "T", "Q"] : List String) →
        ('/' ∈ symbol.toList →
          (((splitSlash symbol.toList).map
              (fun p => Management.describe_hybrid_part ⟨p⟩)).filter
              (fun p => p ≠ "")) = []) →
        Management.expand_single_symbol symbol = symbol)
    ∧ Management.expand_mana_cost (some "{Z}") = some "Z" := by
  refine ⟨?_, by decide⟩
  intro symbol h1 h2 h3 h4
  have hfind := colour_find_eq_none symbol h2
  simp only [List.mem_cons, List.not_mem_nil, or_false, not_or] at h3
  obtain ⟨hC, hS, hX, hT, hQ⟩ := h3
  by_cases hsl : '/' ∈ symbol.toList
  · have hcont : symbol.toList.contains '/' = true := List.elem_iff.mpr hsl
    have hsl' : '/' ∈ symbol.data := hsl
    have h4' : ((splitSlash symbol.data).map
        (fun p => Management.describe_hybrid_part ⟨p⟩)).filter
        (fun p => p ≠ "") = [] := h4 hsl
    simp [Management.expand_single_symbol, h1, hfind, hC, hS, hX, hT, hQ, hcont,
      hsl', h4']
    intro x hx hne
    have hxe := List.filter_eq_nil_iff.mp h4'
      (Management.describe_hybrid_part ⟨x⟩)
      (List.mem_map_of_mem (fun p => Management.describe_hybrid_part ⟨p⟩) hx)
    simp at hxe
    exact absurd hxe hne
  · have hcont : symbol.toList.contains '/' = false := by
      cases hc2 : symbol.toList.contains '/' with
      | false => rfl
      | true => exact absurd (List.elem_iff.mp hc2) hsl
    have hsl' : '/' ∉ symbol.data := hsl
    simp [Management.expand_single_symbol, h1, hfind, hC, hS, hX, hT, hQ, hcont, hsl']

theorem claim_C5_witness :
    Management.expand_single_symbol "Z" = "Z" :=
  claim_C5.1 "Z" (by decide) (by decide) (by decide)
    (fun h => absurd h (by decide))

/-- C6: classification is case-insensitive — uppercasing every raw symbol
payload before the run leaves the result unchanged, and uppercasing the
whole notation string leaves `expand_mana_cost` unchanged — and the
recognized expansion phrases use only lowercase vocabulary except the
literal token X of "X mana"; any uppercase character in a hybrid-part
description can only come from a pass-through of the normalized part. -/
theorem claim_C6 :
    (∀ raws : List String,
        Management.expandFromSymbols (raws.map pyUpperStr)
          = Management.expandFromSymbols raws)
    ∧ (∀ s : String,
        Management.expand_mana_cost (some (pyUpperStr s))
          = Management.expand_mana_cost (some s))
    ∧ (∀ symbol : String, pyIsDigit symbol = true →
        ∀ c ∈ (Management.expand_single_symbol symbol).toList, c.isUpper = false)
    ∧ (∀ symbol ∈ (["W", "U", "B", "R", "G", "C", "S", "T", "Q"] : List String),
        ∀ c ∈ (Management.expand_single_symbol symbol).toList, c.isUpper = false)
    ∧ (Management.expand_single_symbol "X" = "X mana"
        ∧ ∀ c ∈ ("X mana" : String).toList, c.isUpper = false ∨ c = 'X')
    ∧ (∀ p : String, ∀ c ∈ (Management.describe_hybrid_part p).toList,
        c.isUpper = false ∨ c ∈ (pyStrip (pyUpperStr p)).toList) := by
  refine ⟨expandFromSymbols_map_upper, ?_, ?_, by decide, ⟨by decide, by decide⟩, ?_⟩
  · intro s
    by_cases hs : s = ""
    · subst hs; rfl
    · have hs2 : pyUpperStr s ≠ "" := by
        intro he
        apply hs
        have hd2 : s.data.map pyUpperChar = [] := congrArg String.data he
        have hd3 : s.data = [] := List.map_eq_nil_iff.mp hd2
        cases s with
        | mk d => rw [show d = [] from hd3]
      have hfs : findSymbols (pyUpperStr s).toList
          = (findSymbols s.toList).map pyUpperStr := findSymbols_map_upper s.toList
      cases hl : findSymbols s.data with
      | nil =>
        have hfs2 : findSymbols (pyUpperStr s).data = [] := by
          rw [show findSymbols (pyUpperStr s).data
              = (findSymbols s.toList).map pyUpperStr from hfs]
          rw [show findSymbols s.toList = [] from hl]
          rfl
        simp [Management.expand_mana_cost, hs, hs2, hl, hfs2]
      | cons a t =>
        have hfs2 : findSymbols (pyUpperStr s).data
            = pyUpperStr a :: t.map pyUpperStr := by
          rw [show findSymbols (pyUpperStr s).data
              = (findSymbols s.toList).map pyUpperStr from hfs]
          rw [show findSymbols s.toList = a :: t from hl]
          rfl
        have hval := expandFromSymbols_map_upper (a :: t)
        simp only [List.map_cons] at hval
        simp [Management.expand_mana_cost, hs, hs2, hl, hfs2, hval]
  · intro symbol h c hc
    have heq : Management.expand_single_symbol symbol
        = pyIntRepr (pyInt symbol) ++ " colourless mana" := by
      unfold Management.expand_single_symbol
      rw [if_pos h]
    rw [heq, toList_append] at hc
    rcases List.mem_append.mp hc with hc1 | hc2
    · exact pyIntRepr_not_upper (pyInt symbol) c hc1
    · have hlow : ∀ c ∈ (" colourless mana" : String).toList, c.isUpper = false := by
        decide
      exact hlow c hc2
  · intro p c hc
    by_cases h1 : pyIsDigit (pyStrip (pyUpperStr p)) = true
    · rw [describe_hybrid_part_digit p h1, toList_append] at hc
      rcases List.mem_append.mp hc with hc1 | hc2
      · exact Or.inl (pyIntRepr_not_upper (pyInt (pyStrip (pyUpperStr p))) c hc1)
      · have hlow : ∀ c ∈ (" colourless" : String).toList, c.isUpper = false := by
          decide
        exact Or.inl (hlow c hc2)
    · have h1' : pyIsDigit (pyStrip (pyUpperStr p)) = false := by
        revert h1
        cases pyIsDigit (pyStrip (pyUpperStr p)) <;> simp
      by_cases h2 : pyStrip (pyUpperStr p) = "P"
      · rw [describe_hybrid_part_life p h1' h2] at hc
        have hlow : ∀ c ∈ ("2 life" : String).toList, c.isUpper = false := by decide
        exact Or.inl (hlow c hc)
      · cases hfind : Management.COLOUR_MAP.find?
            (fun pr => pr.1 == pyStrip (pyUpperStr p)) with
        | some pr =>
          rw [describe_hybrid_part_found p pr h1' h2 hfind] at hc
          have hmem := List.mem_of_find?_eq_some hfind
          have hlow : ∀ pr ∈ Management.COLOUR_MAP,
              ∀ c ∈ (pr.2 : String).toList, c.isUpper = false := by decide
          exact Or.inl (hlow pr hmem c hc)
        | none =>
          by_cases h3 : pyStrip (pyUpperStr p) = "C"
          · rw [describe_hybrid_part_colourless p h1' h2 hfind h3] at hc
            have hlow : ∀ c ∈ ("colourless" : String).toList, c.isUpper = false := by
              decide
            exact Or.inl (hlow c hc)
          · by_cases h4 : pyStrip (pyUpperStr p) = "S"
            · rw [describe_hybrid_part_snow p h1' h2 hfind h3 h4] at hc
              have hlow : ∀ c ∈ ("snow" : String).toList, c.isUpper = false := by
                decide
              exact Or.inl (hlow c hc)
            · rw [describe_hybrid_part_unknown p h1' h2 hfind h3 h4] at hc
              exact Or.inr hc

theorem claim_C6_witness :
    Management.expand_mana_cost (some (pyUpperStr "{w/p}"))
      = Management.expand_mana_cost (some "{w/p}")
    ∧ ('2' : Char).isUpper = false :=
  ⟨claim_C6.2.1 "{w/p}", claim_C6.2.2.1 "2" (by decide) '2' (by decide)⟩

/-- C9: bracket groups whose payload is empty or whitespace-only are
silently skipped: a notation made only of such groups yields the absence
marker, and in mixed inputs such groups contribute no phrase and no
separator to the joined output. -/
theorem claim_C9 :
    (∀ raws : List String, (∀ r ∈ raws, pyUpperStr (pyStrip r) = "") →
        Management.expandFromSymbols raws = none)
    ∧ (∀ raws1 raws2 : List String, ∀ r : String, pyUpperStr (pyStrip r) = "" →
        Management.expandedParts (raws1 ++ r :: raws2)
          = Management.expandedParts (raws1 ++ raws2))
    ∧ Management.expand_mana_cost (some "{}") = none
    ∧ Management.expand_mana_cost (some "{ }") = none
    ∧ Management.expand_mana_cost (some "{W}{}{U}") = some "1 white mana, 1 blue mana"
    := by
  refine ⟨?_, ?_, by decide, by decide, by decide⟩
  · intro raws h
    have hparts : Management.expandedParts raws = [] := by
      apply List.filterMap_eq_nil_iff.mpr
      intro r hr
      simp [h r hr]
    unfold Management.expandFromSymbols
    rw [hparts]
    rfl
  · intro raws1 raws2 r hr
    have hf : (if pyUpperStr (pyStrip r) = "" then none
        else
          if Management.expand_single_symbol (pyUpperStr (pyStrip r)) = ""
          then none
          else some (Management.expand_single_symbol (pyUpperStr (pyStrip r))))
        = (none : Option String) := by
      simp [hr]
    unfold Management.expandedParts
    simp only [List.filterMap_append, List.filterMap_cons, hf]

theorem claim_C9_witness :
    Management.expandFromSymbols ["", " "] = none :=
  claim_C9.1 ["", " "] (by decide)

/-- C10: each hybrid part is trimmed of surrounding whitespace (after
uppercasing) before classification, so padding a part with whitespace
never changes its description, and "{w / p}" expands exactly like
"{w/p}". -/
theorem claim_C10 :
    (∀ p ws1 ws2 : String,
        (∀ c ∈ ws1.toList, pyIsSpaceChar c = true) →
        (∀ c ∈ ws2.toList, pyIsSpaceChar c = true) →
        Management.describe_hybrid_part (ws1 ++ p ++ ws2)
          = Management.describe_hybrid_part p)
    ∧ Management.expand_mana_cost (some "{w / p}")
        = Management.expand_mana_cost (some "{w/p}")
    ∧ Management.expand_mana_cost (some "{w / p}")
        = some "white or 2 life hybrid mana" := by
  refine ⟨?_, by decide, by decide⟩
  intro p ws1 ws2 h1 h2
  apply describe_hybrid_part_congr
  have hu1 : ∀ c ∈ ws1.toList.map pyUpperChar, pyIsSpaceChar c = true := by
    intro c hc
    obtain ⟨d, hd, rfl⟩ := List.mem_map.mp hc
    rw [pyIsSpaceChar_pyUpperChar]
    exact h1 d hd
  have hu2 : ∀ c ∈ ws2.toList.map pyUpperChar, pyIsSpaceChar c = true := by
    intro c hc
    obtain ⟨d, hd, rfl⟩ := List.mem_map.mp hc
    rw [pyIsSpaceChar_pyUpperChar]
    exact h2 d hd
  have hdata : (pyUpperStr (ws1 ++ p ++ ws2)).toList
      = ws1.toList.map pyUpperChar ++ p.toList.map pyUpperChar
        ++ ws2.toList.map pyUpperChar := by
    show ((ws1 ++ p ++ ws2).toList.map pyUpperChar) = _
    rw [toList_append, toList_append, List.map_append, List.map_append]
  show pyStrip (pyUpperStr (ws1 ++ p ++ ws2)) = pyStrip (pyUpperStr p)
  unfold pyStrip
  rw [show (pyUpperStr (ws1 ++ p ++ ws2)).toList
      = ws1.toList.map pyUpperChar ++ p.toList.map pyUpperChar
        ++ ws2.toList.map pyUpperChar from hdata]
  rw [stripL_pad (ws1.toList.map pyUpperChar) (ws2.toList.map pyUpperChar)
    (p.toList.map pyUpperChar) hu1 hu2]
  rfl

theorem claim_C10_witness :
    Management.describe_hybrid_part (" " ++ "w" ++ " ")
      = Management.describe_hybrid_part "w" :=
  claim_C10.1 "w" " " " " (by decide) (by decide)
